import Mathlib

/-!
Verification of the node-server-sdk specification against a shallow
embedding of the SDK's data model and component contracts.

The repository ships only the type-declaration surface (`src/index.d.ts`);
the behavioural contracts (feature store, evaluator, event processor,
readiness promises) are therefore modelled from the specification's words,
as marked on each definition.
-/

set_option autoImplicit false

namespace NodeServerSdk

/-- A scalar JSON-like value, as allowed in `LDUser.custom` entries
(string, boolean, or number; numbers modelled as integers). -/
inductive LDScalar where
  | s (v : String)
  | b (v : Bool)
  | n (v : Int)
  deriving DecidableEq, Repr

/-- Modelled from the spec: `LDFlagValue` is "any JSON-serializable value"
(src/index.d.ts, type `LDFlagValue = any`); modelled as null, a scalar, or
an array of scalars. -/
inductive LDValue where
  | null
  | scalar (v : LDScalar)
  | arr (xs : List LDScalar)
  deriving DecidableEq, Repr

/-- A custom user attribute: a scalar or an array of scalars
(src/index.d.ts, `LDUser.custom`). -/
inductive LDCustomValue where
  | scalar (v : LDScalar)
  | arr (xs : List LDScalar)
  deriving DecidableEq, Repr

/-- An LDUser (src/index.d.ts `LDUser`): a required unique `key` plus
optional display/contact attributes, an `anonymous` flag, and a `custom`
attribute map. -/
structure LDUser where
  key : String
  name : Option String := none
  firstName : Option String := none
  lastName : Option String := none
  email : Option String := none
  avatar : Option String := none
  ip : Option String := none
  country : Option String := none
  anonymous : Option Bool := none
  custom : List (String × LDCustomValue) := []
  deriving DecidableEq, Repr

/-- Modelled from the spec: a `FlagRecord` carries a per-key monotonically
increasing `version`, an arbitrary serializable `value`, and a `deleted`
tombstone marker (§3 DATA MODEL). The record's key is the key it is stored
under in the `FlagSet` map. -/
structure FlagRecord where
  version : Nat
  value : LDValue
  deleted : Bool
  deriving DecidableEq, Repr

/-- A `FlagSet`: a mapping from key to `FlagRecord`, modelled as an
association list with at most one binding per key. -/
abbrev FlagSet := List (String × FlagRecord)

/-- Look a key up in a flag map. -/
def lookupFlag : List (String × FlagRecord) → String → Option FlagRecord
  | [], _ => none
  | (k', r) :: rest, k => if k' = k then some r else lookupFlag rest k

/-- Replace (or append) the binding of a key in a flag map. -/
def setFlag : List (String × FlagRecord) → String → FlagRecord → List (String × FlagRecord)
  | [], k, r => [(k, r)]
  | (k', r') :: rest, k, r =>
      if k' = k then (k, r) :: rest else (k', r') :: setFlag rest k r

/-- Modelled from the spec: the Feature Store's state — the exclusively
owned flag map plus the initialized marker (§4.1; the repository ships only
the `LDFeatureStore` interface declaration in src/index.d.ts). -/
structure FeatureStore where
  flags : List (String × FlagRecord)
  inited : Bool
  deriving DecidableEq, Repr

/-- The store before any data arrives. -/
def emptyFeatureStore : FeatureStore := { flags := [], inited := false }

/-- Modelled from the spec: `Init(flags)` atomically replaces the entire
flag set and marks the store initialized (§4.1). -/
def FeatureStore.init (_s : FeatureStore) (flags : List (String × FlagRecord)) : FeatureStore :=
  { flags := flags, inited := true }

/-- Modelled from the spec: `Get(key)` returns the current record or
absence; it never returns a tombstoned record to evaluation callers —
a tombstone is treated as absent, though its version is retained
internally (§4.1). -/
def FeatureStore.get (s : FeatureStore) (k : String) : Option FlagRecord :=
  match lookupFlag s.flags k with
  | none => none
  | some r => if r.deleted then none else some r

/-- Modelled from the spec: `All()` returns a snapshot copy excluding
tombstoned entries (§4.1). -/
def FeatureStore.all (s : FeatureStore) : List (String × FlagRecord) :=
  s.flags.filter (fun p => !p.2.deleted)

/-- Modelled from the spec: `Upsert(key, record)` applies only if
`record.version > stored.version` (or stored is absent); otherwise the
call is a silent no-op, not an error (§4.1). -/
def FeatureStore.upsert (s : FeatureStore) (k : String) (r : FlagRecord) : FeatureStore :=
  match lookupFlag s.flags k with
  | none => { s with flags := setFlag s.flags k r }
  | some cur =>
      if cur.version < r.version then { s with flags := setFlag s.flags k r } else s

/-- Modelled from the spec: `Delete(key, version)` is equivalent to an
`Upsert` with a tombstone record at the given version; the same
version-ordering rule applies (§4.1). -/
def FeatureStore.del (s : FeatureStore) (k : String) (version : Nat) : FeatureStore :=
  s.upsert k { version := version, value := .null, deleted := true }

/-- Modelled from the spec: `Initialized()` is true once `Init` has been
called at least once (§4.1). -/
def FeatureStore.initialized (s : FeatureStore) : Bool := s.inited

/- ### Store lemmas -/

theorem lookupFlag_setFlag_self (fs : List (String × FlagRecord)) (k : String) (r : FlagRecord) :
    lookupFlag (setFlag fs k r) k = some r := by
  induction fs with
  | nil => simp [setFlag, lookupFlag]
  | cons hd tl ih =>
      obtain ⟨k', r'⟩ := hd
      by_cases h : k' = k
      · simp [setFlag, lookupFlag, h]
      · simp [setFlag, lookupFlag, h, ih]

theorem upsert_flags_of_absent (s : FeatureStore) (k : String) (r : FlagRecord)
    (h : lookupFlag s.flags k = none) :
    (s.upsert k r).flags = setFlag s.flags k r := by
  simp [FeatureStore.upsert, h]

theorem upsert_noop_of_le (s : FeatureStore) (k : String) (cur r : FlagRecord)
    (hcur : lookupFlag s.flags k = some cur) (hle : r.version ≤ cur.version) :
    s.upsert k r = s := by
  simp [FeatureStore.upsert, hcur, Nat.not_lt.mpr hle]

/-- **C1.** For every key and every pair of writes `Upsert(k, r1)` then
`Upsert(k, r2)` with `r2.version ≤ r1.version`, the second upsert is a
silent no-op leaving the store exactly as after the first (so `Get` never
regresses), and when the key was absent beforehand (the claim's scenario
establishing the `r1` record) and `r1` is not a tombstone, `Get(k)`
afterwards reflects the `r1` record; the store never overwrites a record
with one of lower or equal version for the same key. -/
theorem upsert_never_regresses (s : FeatureStore) (k : String) (r1 r2 : FlagRecord)
    (h : r2.version ≤ r1.version) :
    (s.upsert k r1).upsert k r2 = s.upsert k r1 ∧
    (lookupFlag s.flags k = none → r1.deleted = false →
      ((s.upsert k r1).upsert k r2).get k = some r1) := by
  have hmain : (s.upsert k r1).upsert k r2 = s.upsert k r1 := by
    cases hcur : lookupFlag s.flags k with
    | none =>
        have hflags : (s.upsert k r1).flags = setFlag s.flags k r1 :=
          upsert_flags_of_absent s k r1 hcur
        have hlook : lookupFlag (s.upsert k r1).flags k = some r1 := by
          rw [hflags]; exact lookupFlag_setFlag_self _ _ _
        exact upsert_noop_of_le _ k r1 r2 hlook h
    | some cur =>
        by_cases hlt : cur.version < r1.version
        · have hflags : (s.upsert k r1).flags = setFlag s.flags k r1 := by
            simp [FeatureStore.upsert, hcur, hlt]
          have hlook : lookupFlag (s.upsert k r1).flags k = some r1 := by
            rw [hflags]; exact lookupFlag_setFlag_self _ _ _
          exact upsert_noop_of_le _ k r1 r2 hlook h
        · have hfirst : s.upsert k r1 = s := by
            simp [FeatureStore.upsert, hcur, hlt]
          rw [hfirst]
          have hle2 : r2.version ≤ cur.version :=
            le_trans h (Nat.not_lt.mp hlt)
          exact upsert_noop_of_le s k cur r2 hcur hle2
  refine ⟨hmain, fun habs hdel => ?_⟩
  rw [hmain]
  have hflags : (s.upsert k r1).flags = setFlag s.flags k r1 :=
    upsert_flags_of_absent s k r1 habs
  simp [FeatureStore.get, hflags, lookupFlag_setFlag_self, hdel]

/-- Witness for C1 at a concrete store and records. -/
theorem upsert_never_regresses_witness :
    ((emptyFeatureStore.upsert "flagA" ⟨2, .scalar (.b true), false⟩).upsert
        "flagA" ⟨2, .scalar (.b false), false⟩ =
      emptyFeatureStore.upsert "flagA" ⟨2, .scalar (.b true), false⟩) ∧
    ((emptyFeatureStore.upsert "flagA" ⟨2, .scalar (.b true), false⟩).upsert
        "flagA" ⟨2, .scalar (.b false), false⟩).get "flagA" =
      some ⟨2, .scalar (.b true), false⟩ := by
  have h := upsert_never_regresses emptyFeatureStore "flagA"
    ⟨2, .scalar (.b true), false⟩ ⟨2, .scalar (.b false), false⟩ (by decide)
  exact ⟨h.1, h.2 (by decide) (by decide)⟩

/-- **C2.** `Delete(key, version)` is an `Upsert` of a tombstone record at
that version: after `Upsert("flagB", {version:5, value:"x"})` on an empty
store followed by `Delete("flagB", 6)`, `flagB` is absent from `All()` and
not returned by `Get`, while the store internally retains version 6, so a
later upsert with version 5 or 6 is rejected and one with version 7 is
accepted. -/
theorem delete_tombstone_scenario :
    (emptyFeatureStore.upsert "flagB" ⟨5, .scalar (.s "x"), false⟩).del "flagB" 6 =
      (emptyFeatureStore.upsert "flagB" ⟨5, .scalar (.s "x"), false⟩).upsert "flagB"
        ⟨6, .null, true⟩ ∧
    lookupFlag
      (((emptyFeatureStore.upsert "flagB" ⟨5, .scalar (.s "x"), false⟩).del "flagB" 6).all)
      "flagB" = none ∧
    ((emptyFeatureStore.upsert "flagB" ⟨5, .scalar (.s "x"), false⟩).del "flagB" 6).get
      "flagB" = none ∧
    lookupFlag
      ((emptyFeatureStore.upsert "flagB" ⟨5, .scalar (.s "x"), false⟩).del "flagB" 6).flags
      "flagB" = some ⟨6, .null, true⟩ ∧
    ((emptyFeatureStore.upsert "flagB" ⟨5, .scalar (.s "x"), false⟩).del "flagB" 6).upsert
      "flagB" ⟨5, .scalar (.s "y"), false⟩ =
      (emptyFeatureStore.upsert "flagB" ⟨5, .scalar (.s "x"), false⟩).del "flagB" 6 ∧
    ((emptyFeatureStore.upsert "flagB" ⟨5, .scalar (.s "x"), false⟩).del "flagB" 6).upsert
      "flagB" ⟨6, .scalar (.s "y"), false⟩ =
      (emptyFeatureStore.upsert "flagB" ⟨5, .scalar (.s "x"), false⟩).del "flagB" 6 ∧
    (((emptyFeatureStore.upsert "flagB" ⟨5, .scalar (.s "x"), false⟩).del "flagB" 6).upsert
        "flagB" ⟨7, .scalar (.s "y"), false⟩).get "flagB" =
      some ⟨7, .scalar (.s "y"), false⟩ := by
  decide

/- ### Evaluator and client evaluation calls -/

/-- Modelled from the spec: the Evaluator is a pure function over
`(flagKey, UserContext, defaultValue, currentFlagSet)` returning
`(resultValue, evaluated)`; it returns the default and `evaluated = false`
when the client is offline, the store is not yet initialized, the key is
absent, or the stored record is a tombstone (§4.4; rule matching is out of
scope and the stored value is served directly). The `user` argument is
unused beyond the non-empty-key contract enforced by `variation`. -/
def evaluate (offline : Bool) (s : FeatureStore) (key : String) (_user : LDUser)
    (deflt : LDValue) : LDValue × Bool :=
  if offline then (deflt, false)
  else if s.inited = false then (deflt, false)
  else
    match s.get key with
    | none => (deflt, false)
    | some r => (r.value, true)

/-- Modelled from the spec: `LDClient.variation` (src/index.d.ts only
declares its signature) delegates to the Evaluator; a missing or empty
user key is a caller contract violation surfaced synchronously as an
error, and no data-unavailability condition raises (§4.4, §7). -/
def variation (offline : Bool) (s : FeatureStore) (key : String) (user : LDUser)
    (deflt : LDValue) : Except String (LDValue × Bool) :=
  if user.key = "" then .error "user key is missing or empty"
  else .ok (evaluate offline s key user deflt)

/-- Modelled from the spec: `LDClient.toggle` is the alias of `variation`
with an identical signature and no documented behavioural difference
(src/index.d.ts line 420; spec §9 open question). -/
def toggle (offline : Bool) (s : FeatureStore) (key : String) (user : LDUser)
    (deflt : LDValue) : Except String (LDValue × Bool) :=
  variation offline s key user deflt

/-- **C3.** For every flag key, user (with a non-empty key, the ambient
caller contract), and default: `variation` returns exactly the supplied
default and the evaluated indicator `false` whenever the client is
offline, the store is not yet initialized, the key is absent, or the
stored record is a tombstone; in particular for all absent keys the result
is the default. -/
theorem variation_default_when_unavailable (offline : Bool) (s : FeatureStore)
    (key : String) (user : LDUser) (deflt : LDValue) (hkey : user.key ≠ "")
    (h : offline = true ∨ s.inited = false ∨ lookupFlag s.flags key = none ∨
      ∃ r, lookupFlag s.flags key = some r ∧ r.deleted = true) :
    variation offline s key user deflt = .ok (deflt, false) := by
  rw [variation, if_neg hkey]
  rcases h with hoff | huninit | habs | ⟨r, hr, hdel⟩
  · simp [evaluate, hoff]
  · cases hoff : offline
    · simp [evaluate, hoff, huninit]
    · simp [evaluate, hoff]
  · cases hoff : offline
    · cases hin : s.inited
      · simp [evaluate, hoff, hin]
      · simp [evaluate, hoff, hin, FeatureStore.get, habs]
    · simp [evaluate, hoff]
  · cases hoff : offline
    · cases hin : s.inited
      · simp [evaluate, hoff, hin]
      · simp [evaluate, hoff, hin, FeatureStore.get, hr, hdel]
    · simp [evaluate, hoff]

/-- Witness for C3: an absent key on an initialized, online store yields
the default. -/
theorem variation_default_when_unavailable_witness :
    variation false (emptyFeatureStore.init [("flagA", ⟨1, .scalar (.b true), false⟩)])
      "no-such-flag" { key := "user-1" } (.scalar (.n 42)) =
      .ok (.scalar (.n 42), false) :=
  variation_default_when_unavailable false
    (emptyFeatureStore.init [("flagA", ⟨1, .scalar (.b true), false⟩)])
    "no-such-flag" { key := "user-1" } (.scalar (.n 42)) (by decide)
    (Or.inr (Or.inr (Or.inl (by decide))))

/-- **C6.** Evaluation never throws for data unavailability: `variation`
produces an error exactly when the user's key is missing or empty (caller
misuse); for every user with a non-empty key it returns a value, and when
the flag data is unavailable (`Get` absent) that value is the caller's
default. -/
theorem variation_total_unless_misuse (offline : Bool) (s : FeatureStore)
    (key : String) (user : LDUser) (deflt : LDValue) :
    ((∃ e, variation offline s key user deflt = .error e) ↔ user.key = "") ∧
    (user.key ≠ "" → ∃ v b, variation offline s key user deflt = .ok (v, b)) ∧
    (user.key ≠ "" → s.get key = none →
      variation offline s key user deflt = .ok (deflt, false)) := by
  refine ⟨⟨fun ⟨e, he⟩ => ?_, fun h => ?_⟩, fun h => ?_, fun h hget => ?_⟩
  · by_contra hk
    rw [variation, if_neg hk] at he
    exact Except.noConfusion he
  · exact ⟨"user key is missing or empty", by rw [variation, if_pos h]⟩
  · exact ⟨(evaluate offline s key user deflt).1, (evaluate offline s key user deflt).2,
      by rw [variation, if_neg h]⟩
  · rw [variation, if_neg h]
    cases hoff : offline
    · cases hin : s.inited
      · simp [evaluate, hoff, hin]
      · simp [evaluate, hoff, hin, hget]
    · simp [evaluate, hoff]

/-- Witness for C6: a user with empty key errors; a user with a key gets
the default back on an empty store. -/
theorem variation_total_unless_misuse_witness :
    (∃ e, variation false emptyFeatureStore "f" { key := "" } LDValue.null = .error e) ∧
    variation false emptyFeatureStore "f" { key := "user-1" } LDValue.null =
      .ok (LDValue.null, false) :=
  ⟨(variation_total_unless_misuse false emptyFeatureStore "f" { key := "" }
      LDValue.null).1.mpr rfl,
    (variation_total_unless_misuse false emptyFeatureStore "f" { key := "user-1" }
      LDValue.null).2.2 (by decide) (by decide)⟩

/-- **C8.** `toggle` and `variation` are one operation under two names:
for every flag key, user, default value, offline setting and store state,
`toggle` returns exactly the result of `variation`. -/
theorem toggle_eq_variation (offline : Bool) (s : FeatureStore) (key : String)
    (user : LDUser) (deflt : LDValue) :
    toggle offline s key user deflt = variation offline s key user deflt := rfl

/- ### secureModeHash -/

/-- One absorption step of the modelled digest: multiply-accumulate
modulo `2 ^ 64`. -/
def digestStep (acc b : Nat) : Nat := (acc * 16777619 + b + 1) % 2 ^ 64

/-- A concrete deterministic digest over a byte sequence, standing in for
SHA-256 in the modelled HMAC. -/
def toyDigest (bytes : List Nat) : Nat :=
  bytes.foldl digestStep 14695981039346656037

/-- Modelled from the spec: the keyed message authentication code
underlying `secureModeHash` — `H((K xor opad) || H((K xor ipad) || m))`
with the client's credential as key material and the toy digest standing
in for the real hash (src/index.d.ts declares `secureModeHash` returning
the HMAC signature; the implementation is not in src/). -/
def hmacDigest (keyMaterial message : String) : Nat :=
  let kb := keyMaterial.toList.map Char.toNat
  let mb := message.toList.map Char.toNat
  let inner := toyDigest (kb.map (fun b => b ^^^ 54) ++ mb)
  toyDigest (kb.map (fun b => b ^^^ 92) ++ [inner])

/-- Modelled from the spec: `secureModeHash(user)` is a deterministic
keyed hash of the user's key using the client's private credential
(SDK key) as the key material; pure, with no effect on client state
(§4.4; src/index.d.ts lines 434-445). -/
def secureModeHash (sdkKey : String) (user : LDUser) : String :=
  toString (hmacDigest sdkKey user.key)

/-- **C9.** `secureModeHash` is a pure, deterministic function of the
user's key and the client's private credential: any two users with the
same key hash identically under the same credential (no other attribute
influences the output, and no client state is read or written), and the
output is the keyed message authentication code of the user's key under
the credential. -/
theorem secureModeHash_deterministic (sdkKey : String) (u1 u2 : LDUser)
    (h : u1.key = u2.key) :
    secureModeHash sdkKey u1 = secureModeHash sdkKey u2 ∧
    secureModeHash sdkKey u1 = toString (hmacDigest sdkKey u1.key) := by
  unfold secureModeHash
  rw [h]
  exact ⟨rfl, rfl⟩

/-- Witness for C9: two users sharing a key but differing in every other
attribute hash identically. -/
theorem secureModeHash_deterministic_witness :
    secureModeHash "sdk-key" { key := "user-1", name := some "Alice", anonymous := some true } =
      secureModeHash "sdk-key" { key := "user-1" } :=
  (secureModeHash_deterministic "sdk-key"
    { key := "user-1", name := some "Alice", anonymous := some true }
    { key := "user-1" } rfl).1

/- ### Event processor: bounded buffer -/

/-- Modelled from the spec: an `AnalyticsEvent` is a tagged variant over
evaluation, identify, custom and index events (§3). -/
inductive AnalyticsEvent where
  | evalEvent (flagKey userKey : String) (value deflt : LDValue)
  | identifyEvent (user : LDUser)
  | customEvent (name userKey : String) (data : LDValue)
  | indexEvent (user : LDUser)
  deriving DecidableEq, Repr

/-- Modelled from the spec: the Event Processor's buffering state — the
bounded ordered event buffer, the configured capacity
(`LDOptions.capacity`), and the number of buffer-full warnings emitted
since the last flush (§4.3). -/
structure EventProcessor where
  buffer : List AnalyticsEvent
  capacity : Nat
  intervalWarnings : Nat
  deriving DecidableEq, Repr

/-- Modelled from the spec: enqueue appends when there is room; if the
buffer is at capacity the new event is dropped, with a one-time warning
per flush interval rather than one per dropped event; it never blocks the
caller (§4.3). -/
def EventProcessor.enqueue (p : EventProcessor) (e : AnalyticsEvent) : EventProcessor :=
  if p.buffer.length < p.capacity then { p with buffer := p.buffer ++ [e] }
  else if p.intervalWarnings = 0 then { p with intervalWarnings := 1 }
  else p

/-- Modelled from the spec: a flush atomically swaps the buffer for an
empty one and hands back the swapped-out batch; the warning budget resets
with the new interval (§4.3). -/
def EventProcessor.flushBuffer (p : EventProcessor) : EventProcessor × List AnalyticsEvent :=
  ({ p with buffer := [], intervalWarnings := 0 }, p.buffer)

/-- An operation arriving at the event processor: an enqueue from an
evaluation/tracking call, or a flush (timer, capacity or explicit). -/
inductive EPOp where
  | enq (e : AnalyticsEvent)
  | flushOp
  deriving DecidableEq, Repr

/-- Run a sequence of operations against the event processor. -/
def EventProcessor.run (p : EventProcessor) : List EPOp → EventProcessor
  | [] => p
  | .enq e :: rest => (p.enqueue e).run rest
  | .flushOp :: rest => p.flushBuffer.1.run rest

theorem enqueue_capacity_eq (p : EventProcessor) (e : AnalyticsEvent) :
    (p.enqueue e).capacity = p.capacity := by
  rw [EventProcessor.enqueue]
  split
  · rfl
  · split <;> rfl

theorem enqueue_length_le (p : EventProcessor) (e : AnalyticsEvent)
    (h : p.buffer.length ≤ p.capacity) :
    (p.enqueue e).buffer.length ≤ p.capacity := by
  rw [EventProcessor.enqueue]
  split
  · simpa using Nat.succ_le_of_lt (by assumption)
  · split <;> exact h

theorem enqueue_warnings_le (p : EventProcessor) (e : AnalyticsEvent)
    (h : p.intervalWarnings ≤ 1) :
    (p.enqueue e).intervalWarnings ≤ 1 := by
  rw [EventProcessor.enqueue]
  split
  · exact h
  · split
    · exact le_refl 1
    · exact h

/-- **C4.** Under every sequence of enqueue and flush operations the event
buffer's length never exceeds the configured capacity (which never
changes); an enqueue arriving with the buffer at capacity leaves the
buffer unchanged (the event is dropped, the state uncorrupted), and at
most one buffer-full warning is emitted per flush interval. -/
theorem eventBuffer_bounded (p : EventProcessor) (ops : List EPOp)
    (hlen : p.buffer.length ≤ p.capacity) (hwarn : p.intervalWarnings ≤ 1) :
    ((p.run ops).buffer.length ≤ (p.run ops).capacity ∧
      (p.run ops).capacity = p.capacity ∧
      (p.run ops).intervalWarnings ≤ 1) ∧
    (∀ e, p.buffer.length = p.capacity → (p.enqueue e).buffer = p.buffer) := by
  constructor
  · induction ops generalizing p with
    | nil => exact ⟨hlen, rfl, hwarn⟩
    | cons op rest ih =>
        cases op with
        | enq e =>
            have h1 : (p.enqueue e).buffer.length ≤ (p.enqueue e).capacity := by
              rw [enqueue_capacity_eq]; exact enqueue_length_le p e hlen
            have h2 : (p.enqueue e).intervalWarnings ≤ 1 := enqueue_warnings_le p e hwarn
            have := ih (p.enqueue e) h1 h2
            rw [EventProcessor.run]
            exact ⟨this.1, by rw [this.2.1, enqueue_capacity_eq], this.2.2⟩
        | flushOp =>
            have h1 : p.flushBuffer.1.buffer.length ≤ p.flushBuffer.1.capacity :=
              Nat.zero_le _
            have h2 : p.flushBuffer.1.intervalWarnings ≤ 1 := Nat.zero_le _
            have := ih p.flushBuffer.1 h1 h2
            rw [EventProcessor.run]
            exact ⟨this.1, this.2.1, this.2.2⟩
  · intro e hfull
    rw [EventProcessor.enqueue, if_neg (by rw [hfull]; exact lt_irrefl _)]
    split <;> rfl

/-- Witness for C4: filling a capacity-2 buffer and over-enqueueing keeps
the length at 2, and the enqueue at capacity leaves the buffer as it
was. -/
theorem eventBuffer_bounded_witness :
    ((EventProcessor.mk [] 2 0).run
        [.enq (.customEvent "a" "u" .null), .enq (.customEvent "b" "u" .null),
          .enq (.customEvent "c" "u" .null)]).buffer.length ≤ 2 ∧
    ((EventProcessor.mk [.customEvent "a" "u" .null, .customEvent "b" "u" .null] 2 0).enqueue
        (.customEvent "c" "u" .null)).buffer =
      [.customEvent "a" "u" .null, .customEvent "b" "u" .null] := by
  have h1 := eventBuffer_bounded (EventProcessor.mk [] 2 0)
    [.enq (.customEvent "a" "u" .null), .enq (.customEvent "b" "u" .null),
      .enq (.customEvent "c" "u" .null)] (by decide) (by decide)
  have h2 := eventBuffer_bounded
    (EventProcessor.mk [.customEvent "a" "u" .null, .customEvent "b" "u" .null] 2 0)
    [] (by decide) (by decide)
  exact ⟨le_of_le_of_eq h1.1.1 h1.1.2.1, h2.2 (.customEvent "c" "u" .null) (by decide)⟩

/- ### Event processor: per-user deduplication -/

/-- The event emitted for a user by the deduplicating pipeline: either the
full attribute-carrying index/identify-class event, or the compact
key-only form (§4.3). -/
inductive OutEvent where
  | fullUser (u : LDUser)
  | keyOnly (k : String)
  deriving DecidableEq, Repr

/-- Modelled from the spec: the bounded recency set of user keys already
seen within the current dedup window, with its configured capacity
(`LDOptions.userKeysCapacity`) (§3, §4.3). -/
structure EventDedup where
  seen : List String
  capacity : Nat
  deriving DecidableEq, Repr

/-- Default for `LDOptions.userKeysCapacity` (src/index.d.ts lines
153-159). -/
def defaultUserKeysCapacity : Nat := 1000

/-- Default in seconds for `LDOptions.userKeysFlushInterval`
(src/index.d.ts lines 161-167). -/
def defaultUserKeysFlushInterval : Nat := 300

/-- Modelled from the spec: on first sight of a user key within a window a
full attribute-carrying event is emitted and the key is remembered;
subsequent events for the same key carry only the key; exceeding the
key-set capacity clears the entire set, starting a new window early
(§4.3). -/
def EventDedup.noticeUser (d : EventDedup) (u : LDUser) : EventDedup × OutEvent :=
  if u.key ∈ d.seen then (d, .keyOnly u.key)
  else
    let seen' := u.key :: d.seen
    ({ d with seen := if d.capacity < seen'.length then [] else seen' }, .fullUser u)

/-- **C5.** Two identify-equivalent events for the same user key within
one dedup window (the key unseen, the set within capacity) produce exactly
one full attribute-carrying event — the first — and exactly one key-only
event — the second; the recently-seen key set defaults to capacity 1000
with a 300-second reset interval, and overflowing the capacity clears the
entire set, starting a new window early. -/
theorem dedup_two_events (d : EventDedup) (u : LDUser)
    (hnew : u.key ∉ d.seen) (hroom : d.seen.length + 1 ≤ d.capacity) :
    ((d.noticeUser u).2 = OutEvent.fullUser u ∧
      ((d.noticeUser u).1.noticeUser u).2 = OutEvent.keyOnly u.key) ∧
    defaultUserKeysCapacity = 1000 ∧ defaultUserKeysFlushInterval = 300 ∧
    (∀ (d' : EventDedup) (u' : LDUser), u'.key ∉ d'.seen →
      d'.capacity < d'.seen.length + 1 → (d'.noticeUser u').1.seen = []) := by
  have hfirst : d.noticeUser u =
      ({ d with seen := u.key :: d.seen }, .fullUser u) := by
    rw [EventDedup.noticeUser, if_neg hnew]
    simp [if_neg (Nat.not_lt.mpr (by simpa using hroom))]
  refine ⟨⟨by rw [hfirst], ?_⟩, rfl, rfl, fun d' u' hnew' hover => ?_⟩
  · rw [hfirst]
    rw [EventDedup.noticeUser, if_pos (List.mem_cons_self _ _)]
  · rw [EventDedup.noticeUser, if_neg hnew']
    simp [if_pos (by simpa using hover)]

/-- Witness for C5 on a fresh window of capacity 3 and on an overflowing
window of capacity 1. -/
theorem dedup_two_events_witness :
    ((EventDedup.mk [] 3).noticeUser { key := "user-1" }).2 =
      OutEvent.fullUser { key := "user-1" } ∧
    (((EventDedup.mk [] 3).noticeUser { key := "user-1" }).1.noticeUser
        { key := "user-1" }).2 = OutEvent.keyOnly "user-1" ∧
    ((EventDedup.mk ["other"] 1).noticeUser { key := "user-1" }).1.seen = [] := by
  have h := dedup_two_events (EventDedup.mk [] 3) { key := "user-1" }
    (by decide) (by decide)
  exact ⟨h.1.1, h.1.2, h.2.2.2 (EventDedup.mk ["other"] 1) { key := "user-1" }
    (by decide) (by decide)⟩

/- ### Readiness promises -/

/-- A terminal signal from the Update Processor during initialization:
success (`ready`) or unrecoverable failure such as an invalid credential
(`failed`) (§4.2, §4.5). -/
inductive UPSignal where
  | ready
  | failed
  deriving DecidableEq, Repr

/-- The observable state of a one-shot promise. -/
inductive PromiseState where
  | pending
  | resolved
  | rejected
  deriving DecidableEq, Repr

/-- Modelled from the spec: how the promise returned by
`LDClient.waitUntilReady` reacts to an Update Processor signal — it
resolves on `ready` and, if initialization fails, neither resolves nor
rejects (src/index.d.ts lines 378-388; spec §4.5). -/
def waitUntilReadyStep : PromiseState → UPSignal → PromiseState
  | .pending, .ready => .resolved
  | st, _ => st

/-- Modelled from the spec: how the promise returned by
`LDClient.waitForInitialization` reacts to a signal — it settles on the
first terminal Update Processor outcome, resolving on `ready` and
rejecting on unrecoverable failure (src/index.d.ts lines 390-397; spec
§4.5). -/
def waitForInitializationStep : PromiseState → UPSignal → PromiseState
  | .pending, .ready => .resolved
  | .pending, .failed => .rejected
  | st, _ => st

/-- The `waitUntilReady` promise state after a trace of Update Processor
signals. -/
def waitUntilReady (trace : List UPSignal) : PromiseState :=
  trace.foldl waitUntilReadyStep .pending

/-- The `waitForInitialization` promise state after a trace of Update
Processor signals. -/
def waitForInitialization (trace : List UPSignal) : PromiseState :=
  trace.foldl waitForInitializationStep .pending

theorem foldl_waitUntilReadyStep_resolved (trace : List UPSignal) :
    trace.foldl waitUntilReadyStep .resolved = .resolved := by
  induction trace with
  | nil => rfl
  | cons sig rest ih => cases sig <;> simpa [waitUntilReadyStep] using ih

theorem waitUntilReady_resolved_iff (trace : List UPSignal) :
    waitUntilReady trace = .resolved ↔ UPSignal.ready ∈ trace := by
  induction trace with
  | nil => simp [waitUntilReady]
  | cons sig rest ih =>
      cases sig
      · simp [waitUntilReady, List.foldl_cons, waitUntilReadyStep,
          foldl_waitUntilReadyStep_resolved]
      · simpa [waitUntilReady, List.foldl_cons, waitUntilReadyStep] using ih

theorem foldl_waitForInitializationStep_settled (trace : List UPSignal)
    (st : PromiseState) (h : st ≠ .pending) :
    trace.foldl waitForInitializationStep st = st := by
  induction trace with
  | nil => rfl
  | cons sig rest ih =>
      cases st
      · exact absurd rfl h
      · cases sig <;> simpa [waitForInitializationStep] using ih
      · cases sig <;> simpa [waitForInitializationStep] using ih

/-- **C7.** The two readiness futures are distinct: `waitUntilReady`
resolves exactly when the client has reached the ready state (it never
completes successfully in any other state), while `waitForInitialization`
is settled exactly when the Update Processor has reached a terminal
outcome, resolving when that first outcome is `ready` and rejecting when
it is an unrecoverable failure. -/
theorem readiness_futures_distinct (trace : List UPSignal) :
    (waitUntilReady trace = .resolved ↔ UPSignal.ready ∈ trace) ∧
    (waitForInitialization trace ≠ .pending ↔
      UPSignal.ready ∈ trace ∨ UPSignal.failed ∈ trace) ∧
    waitForInitialization (.ready :: trace) = .resolved ∧
    waitForInitialization (.failed :: trace) = .rejected := by
  refine ⟨waitUntilReady_resolved_iff trace, ?_, ?_, ?_⟩
  · cases trace with
    | nil => simp [waitForInitialization]
    | cons sig rest =>
        cases sig
        · simp [waitForInitialization, List.foldl_cons, waitForInitializationStep,
            foldl_waitForInitializationStep_settled rest .resolved (by simp)]
        · simp [waitForInitialization, List.foldl_cons, waitForInitializationStep,
            foldl_waitForInitializationStep_settled rest .rejected (by simp)]
  · simp [waitForInitialization, List.foldl_cons, waitForInitializationStep,
      foldl_waitForInitializationStep_settled trace .resolved (by simp)]
  · simp [waitForInitialization, List.foldl_cons, waitForInitializationStep,
      foldl_waitForInitializationStep_settled trace .rejected (by simp)]

theorem foldl_waitUntilReadyStep_ne_rejected (trace : List UPSignal)
    (st : PromiseState) (h : st ≠ .rejected) :
    trace.foldl waitUntilReadyStep st ≠ .rejected := by
  induction trace generalizing st with
  | nil => exact h
  | cons sig rest ih =>
      rw [List.foldl_cons]
      apply ih
      cases st <;> cases sig <;> simp_all [waitUntilReadyStep]

/-- **C10.** `waitUntilReady` never rejects: after every trace of Update
Processor signals its promise is not rejected, and in every execution in
which initialization only ever fails (no `ready` signal occurs) the
promise remains pending rather than rejecting. -/
theorem waitUntilReady_never_rejects (trace : List UPSignal) :
    waitUntilReady trace ≠ .rejected ∧
    (UPSignal.ready ∉ trace → waitUntilReady trace = .pending) := by
  constructor
  · exact foldl_waitUntilReadyStep_ne_rejected trace .pending (by simp)
  · intro hnone
    induction trace with
    | nil => rfl
    | cons sig rest ih =>
        cases sig
        · exact absurd (List.mem_cons_self _ _) hnone
        · rw [waitUntilReady, List.foldl_cons] at *
          exact ih (fun hmem => hnone (List.mem_cons_of_mem _ hmem))

/-- Witness for C10: after a permanent failure the promise is pending, not
rejected. -/
theorem waitUntilReady_never_rejects_witness :
    waitUntilReady [.failed] ≠ .rejected ∧ waitUntilReady [.failed] = .pending :=
  ⟨(waitUntilReady_never_rejects [.failed]).1,
    (waitUntilReady_never_rejects [.failed]).2 (by decide)⟩

end NodeServerSdk
